import Mathlib

/-!
Verification of the multi-actuator stepper-motor sequencing engine
(`src/main.py` and `src/main2.2.py`) against its specification.

The Python code is shallowly embedded: pure computations become Lean
functions over `Nat`/`ℚ`, the orchestration loops become structurally
recursive functions producing event traces, and the thread interleavings
relevant to the join/barrier claims become explicit labelled transition
systems executed over action lists.
-/

/- ### Step-count computation (move phase)

`main.py` line 27: `steps_needed = int(STEPS_PER_REV * angle / 360)` and
`main2.2.py` line 58: `self.steps_to_target = int(STEPS_PER_REV * target_angle / 360)`.

Python evaluates `STEPS_PER_REV * angle / 360` in binary floating point and
`int` truncates toward zero.  For the values reachable here
(`spr ∈ {200, 400}`, `angle ∈ [15,180]`) the exact rational `spr·angle/360`
is either an integer (computed exactly in float) or at distance ≥ 1/360 from
every integer, far above the double-rounding error, so `int(float)` agrees
exactly with the rational floor, i.e. with `Nat` division. -/

def stepsNeeded (spr angle : Nat) : Nat := spr * angle / 360

/-- Rounding to the nearest natural, `⌊a/b + 1/2⌋`, used to state the
spec's claimed formula `round(stepsPerRevolution * angle / 360)`. -/
def natRound (a b : Nat) : Nat := (2 * a + b) / (2 * b)

/-- The step count the spec claims the move phase computes:
`round(spr·angle/360)`, floored to a minimum of 1. -/
def claimedSteps (spr angle : Nat) : Nat := max 1 (natRound (spr * angle) 360)

/- ### Pulse timing

`main.py` line 30 and `main2.2.py` line 61:
`step_delay = 60.0 / (STEPS_PER_REV * speed_rpm) / 2`.
Modelled exactly over ℚ. -/

def stepDelay (spr rpm : ℚ) : ℚ := 60 / (spr * rpm) / 2

/- ### Return-phase parameters

`main.py` lines 54-62 (`return_motor`): `return_speed = speed_rpm * return_speed_factor`
(default factor `0.5`), `step_delay = 60.0 / (STEPS_PER_REV * return_speed) / 2`,
direction line written `LOW if direction else HIGH` (the move phase writes
`HIGH if direction else LOW`).  `main2.2.py` lines 88-109 (`ReturnThread`):
`self.speed_rpm = speed_rpm * return_speed_factor`, `self.direction = not direction`. -/

def returnSpeed (rpm factor : ℚ) : ℚ := rpm * factor

def returnStepDelay (spr rpm factor : ℚ) : ℚ := 60 / (spr * returnSpeed rpm factor) / 2

/-- Level written to the direction pin by the move phase
(`GPIO.HIGH if direction else GPIO.LOW`, `main.py` line 32). -/
def moveDirLevel (d : Bool) : Bool := d

/-- Level written to the direction pin by the return phase
(`GPIO.LOW if direction else GPIO.HIGH`, `main.py` line 62). -/
def returnDirLevel (d : Bool) : Bool := !d

/-- Step budget handed to the return runner for actuator `idx`: the
coordinators pass `self.steps_moved[idx]` (`main.py` lines 315/337,
`main2.2.py` lines 410/443). -/
def returnBudget (steps : List Nat) (idx : Nat) : Nat := steps.getD idx 0

/- ### Move phase of `main.py` (`move_motor`, lines 26-52)

`for step in range(steps_needed): if stop_event.is_set(): report stopped
step/steps_needed; break; <pulse>`.  The stop event is modelled as a
predicate on the check index (the number of pulses already issued when the
check happens).  The result is the number of pulses issued together with
the optional stopped-report `(k, n)`.  Structural recursion on the fuel
`n - i` keeps the function kernel-reducible. -/

def moveMotorGo (stop : Nat → Bool) (n : Nat) : Nat → Nat → Nat × Option (Nat × Nat)
  | 0, i => (i, none)
  | fuel + 1, i => if stop i then (i, some (i, n)) else moveMotorGo stop n fuel (i + 1)

def moveMotorMain (stop : Nat → Bool) (n : Nat) : Nat × Option (Nat × Nat) :=
  moveMotorGo stop n n 0

/-- `main.py` lines 279-282 (`run_motor`): after `move_motor` returns, the
wrapper runs `if not self.stop_event.is_set(): self.steps_moved[idx] = steps_needed`.
`steps_moved[idx]` was reset to 0 at the start of the repetition, so on a
stopped run it remains 0; it is never incremented per pulse in `main.py`. -/
def runMotorFinalSteps (stop : Nat → Bool) (n : Nat) : Nat :=
  if stop (moveMotorMain stop n).1 then 0 else n

/- ### Move phase of `main2.2.py` (`MotorThread.run`, lines 60-85)

`while steps_moved_to_target < self.steps_to_target and self.running_event.is_set():
<pulse>; steps_moved_to_target += 1; self.steps_moved[self.idx] += 1`.
The trace records the value of `steps_moved[idx]` after each pulse, starting
from `s0`; `running` is the running event sampled at each loop check. -/

def motorMoveGo (running : Nat → Bool) : Nat → Nat → Nat → List Nat
  | 0, _, _ => []
  | fuel + 1, done, s =>
      if running done then (s + 1) :: motorMoveGo running fuel (done + 1) (s + 1) else []

def motorMoveTrace (running : Nat → Bool) (target s0 : Nat) : List Nat :=
  motorMoveGo running target 0 s0

/-- `run_single_sequence` (`main.py` line 262, `main2.2.py` line 340):
`self.steps_moved = [0, 0, 0]` at the start of every repetition,
whatever the previous contents were. -/
def runSingleSequenceReset (_prev : List Nat) : List Nat := [0, 0, 0]

/- ### Return-phase event traces

Status events produced by the return runners and coordinators.  `pulse idx`
stands for one step pulse of actuator `idx`; the other constructors stand
for the status messages emitted at the corresponding source lines. -/

inductive REv where
  | returning (idx steps : Nat)
  | pulse (idx : Nat)
  | returned (idx : Nat)
  | alreadyAt (idx : Nat)
  | pause
  | seqComplete
deriving DecidableEq

/-- One return runner: `main.py` `return_motor` (lines 54-77) and
`main2.2.py` `ReturnThread.run` (lines 101-128).  A zero budget
(`steps_to_return <= 0`, resp. `== 0`; the budget is a count, so both tests
coincide) reports already-at-start and returns without pulsing; otherwise it
announces the return, pulses `steps` times and reports completion. -/
def returnRunnerEvents (idx steps : Nat) : List REv :=
  if steps = 0 then [REv.alreadyAt idx]
  else REv.returning idx steps :: (List.replicate steps (REv.pulse idx) ++ [REv.returned idx])

/-- `steps_moved` at the end of an uncancelled movement phase: each
`run_motor` wrapper stores `int(STEPS_PER_REV * angles[idx] / 360)`
(`main.py` line 282). -/
def movementPhaseSteps (spr : Nat) (angles : List Nat) : List Nat :=
  angles.map (fun a => stepsNeeded spr a)

/-- Indices the Together coordinator spawns a return runner for: those with
`self.steps_moved[idx] > 0` (`main.py` line 313, `main2.2.py` line 405). -/
def spawnedReturnIdxs (steps : List Nat) : List Nat :=
  (List.range steps.length).filter (fun i => 0 < steps.getD i 0)

/-- Together-mode return coordinator (`main2.2.py` lines 400-429): spawns a
`ReturnThread` per actuator with positive `steps_moved`, joins them, and
emits `sequence_complete` when `is_running_sequence` still holds.  The
events of the concurrent runners are given in one serialization (actuator
order); the second component is `steps_moved` afterwards — no return runner
ever writes `steps_moved`, so it passes through unchanged. -/
def returnTogether (steps : List Nat) (isRunning : Bool) : List REv × List Nat :=
  (((spawnedReturnIdxs steps).map (fun i => returnRunnerEvents i (steps.getD i 0))).flatten
      ++ (if isRunning then [REv.seqComplete] else []),
    steps)

/-- Sequential-mode return coordinator, `return_motors_individually`
(`main.py` lines 329-346): from index `idx`, while `idx < len(MOTORS)`
(fuel counts the remaining indices), run the return for actuators with
positive `steps_moved` (others are skipped by the `> 0` guard), sleep 1
second between consecutive actuators (`if idx < len(MOTORS) - 1`), recurse;
at the end emit `sequence_complete`. -/
def returnIndividuallyGo (steps : List Nat) : Nat → Nat → List REv
  | 0, _ => [REv.seqComplete]
  | fuel + 1, idx =>
      (if 0 < steps.getD idx 0 then returnRunnerEvents idx (steps.getD idx 0) else []) ++
        (if idx < steps.length - 1 then [REv.pause] else []) ++
        returnIndividuallyGo steps fuel (idx + 1)

def returnIndividually (steps : List Nat) : List REv :=
  returnIndividuallyGo steps steps.length 0

/-- Sequential-mode coordinator together with its effect on the counters:
neither `return_motors_individually` (`main.py` lines 329-346) nor the
return runner it invokes contains any assignment to `steps_moved` — the
only writes to that list in either file are the move phase's per-pulse
increments and the `[0, 0, 0]` reset at the start of a repetition — so the
snapshot after a completed Sequential return equals the input snapshot,
just as in Together mode. -/
def returnSequential (steps : List Nat) : List REv × List Nat :=
  (returnIndividually steps, steps)

/- ### Stop request and cancellation token (`main.py`)

`self.stop_event` is a `threading.Event` created once in `__init__`;
`stop_motors` (lines 348-358) sets `is_running_sequence = False`, then sets
the event, joins threads and flips the two buttons; `run_single_sequence`
(lines 254-262) returns immediately unless `is_running_sequence`, and
otherwise clears the event at the start of the repetition. -/

structure AppState where
  stopEvent : Bool
  isRunning : Bool
  startEnabled : Bool
  stopEnabled : Bool
deriving DecidableEq

def stopMotors (s : AppState) : AppState :=
  { s with isRunning := false, stopEvent := true, startEnabled := true, stopEnabled := false }

/- For repetitions after the first, `on_sequence_complete` (`main.py`
lines 221-229) schedules `run_single_sequence` on a `threading.Timer`
thread, which therefore interleaves with `stop_motors` running on the GUI
thread.  The guard `if not self.is_running_sequence: return` (line 256)
and the `self.stop_event.clear()` (line 261) are two separate statements,
modelled as two separate atomic actions of the timer thread, interleaving
with the two writes of `stop_motors` (line 350 `is_running_sequence =
False`, line 351 `stop_event.set()`).

Timer-thread program counter: 0 = about to read the guard, 1 = guard
passed (about to clear the token), 2 = token cleared (repetition
running), 3 = returned early (guard failed).  Stop-thread program
counter: 0 = stop not requested, 1 = `is_running_sequence` lowered,
2 = token set (stop request complete). -/

structure RaceState where
  token : Bool
  isRunning : Bool
  timerPc : Nat
  stopPc : Nat
deriving DecidableEq

inductive RaceAct where
  | timer
  | stopper
deriving DecidableEq

def raceStep (s : RaceState) : RaceAct → Option RaceState
  | .timer =>
      match s.timerPc with
      | 0 => if s.isRunning then some { s with timerPc := 1 } else some { s with timerPc := 3 }
      | 1 => some { s with token := false, timerPc := 2 }
      | _ => none
  | .stopper =>
      match s.stopPc with
      | 0 => some { s with isRunning := false, stopPc := 1 }
      | 1 => some { s with token := true, stopPc := 2 }
      | _ => none

def raceRun (s : RaceState) : List RaceAct → Option RaceState
  | [] => some s
  | a :: rest =>
      match raceStep s a with
      | some s2 => raceRun s2 rest
      | none => none

/-- State when a repetition timer is pending: previous repetition finished
uncancelled (token unset), sequence still running, neither thread has
acted. -/
def raceInit : RaceState := ⟨false, true, 0, 0⟩

/- ### Movement-join barrier before the return phase

Two labelled transition systems, executed over explicit action lists.

In `main.py` (`run_single_sequence`, lines 270-306) every mover thread is
created and started before `wait_and_return` is spawned, and
`wait_and_return` joins each of them unconditionally.  A mover's program
counter goes 0 (delaying) → 1 (moving) → 2 (done); the waiter joins motor
`widx` (enabled only once its counter is 2), and once past the last motor
it starts the return sequence (`ret := true`). -/

structure OrchState where
  pcs : List Nat
  widx : Nat
  ret : Bool
deriving DecidableEq

inductive OAct where
  | mover (i : Nat)
  | waiter
deriving DecidableEq

def orchStep (s : OrchState) : OAct → Option OrchState
  | .mover i =>
      if i < s.pcs.length then
        if s.pcs.getD i 0 < 2 then
          some { s with pcs := s.pcs.set i (s.pcs.getD i 0 + 1) }
        else none
      else none
  | .waiter =>
      if s.widx < s.pcs.length then
        if s.pcs.getD s.widx 0 = 2 then some { s with widx := s.widx + 1 } else none
      else if s.ret = false then some { s with ret := true } else none

def orchRun (s : OrchState) : List OAct → Option OrchState
  | [] => some s
  | a :: rest =>
      match orchStep s a with
      | some s2 => orchRun s2 rest
      | none => none

def orchInit (n : Nat) : OrchState := ⟨List.replicate n 0, 0, false⟩

/- In `main2.2.py` (`run_single_sequence`, lines 349-398) each mover first
sleeps its start delay and only then installs its `MotorThread` into
`self.threads[idx]` (initially `[None, None, None]`), while
`wait_and_return` runs `for t in self.threads: if t and t.is_alive():
t.join()` — a slot still holding `None` is skipped without joining.
Mover counters: 0 (delaying, thread slot empty) → 1 (installed, moving) →
2 (done); `inst` records whether the slot has been filled. -/

structure Orch2State where
  pcs : List Nat
  inst : List Bool
  widx : Nat
  ret : Bool
deriving DecidableEq

def orch2Step (s : Orch2State) : OAct → Option Orch2State
  | .mover i =>
      if i < s.pcs.length then
        if s.pcs.getD i 0 = 0 then
          some { s with pcs := s.pcs.set i 1, inst := s.inst.set i true }
        else if s.pcs.getD i 0 = 1 then
          some { s with pcs := s.pcs.set i 2 }
        else none
      else none
  | .waiter =>
      if s.widx < s.pcs.length then
        if s.inst.getD s.widx false then
          if s.pcs.getD s.widx 0 = 2 then some { s with widx := s.widx + 1 } else none
        else some { s with widx := s.widx + 1 }
      else if s.ret = false then some { s with ret := true } else none

def orch2Run (s : Orch2State) : List OAct → Option Orch2State
  | [] => some s
  | a :: rest =>
      match orch2Step s a with
      | some s2 => orch2Run s2 rest
      | none => none

def orch2Init : Orch2State := ⟨[0, 0, 0], [false, false, false], 0, false⟩

/- ### Together-mode return workers in `main.py` (`return_all_motors_together`, lines 308-327)

The per-actuator worker is declared as `def return_motor(idx=idx, m=m):`
inside the method body, shadowing the module-level `return_motor` of line
54.  Inside the worker body the free name `return_motor` resolves to the
enclosing method's local — the nested worker itself — and is called with
six positional arguments, while the worker's signature accepts at most two
positional parameters (`idx`, `m`, both defaulted).  Python therefore
raises `TypeError` at the call, before any pulse; were the arity check ever
to pass, the call would only re-enter the same worker. -/

def innerWorkerMaxPositional : Nat := 2

def innerWorkerCallArgCount : Nat := 6

inductive PyOutcome where
  | ok
  | typeError
deriving DecidableEq

/-- Python call semantics restricted to what the claim needs: a call with
more positional arguments than the callee accepts raises `TypeError` before
the callee body runs, so the worker emits no pulse events. -/
def togetherWorkerRun : PyOutcome × List REv :=
  if innerWorkerCallArgCount ≤ innerWorkerMaxPositional then (PyOutcome.ok, [])
  else (PyOutcome.typeError, [])

/-- Outcome of each return thread the Together coordinator of `main.py`
spawns (one per actuator with positive `steps_moved`). -/
def togetherThreadOutcomes (steps : List Nat) : List PyOutcome :=
  (spawnedReturnIdxs steps).map (fun _ => togetherWorkerRun.1)

/-- All pulse events issued across the Together-mode return threads of
`main.py`. -/
def togetherPulses (steps : List Nat) : List REv :=
  ((spawnedReturnIdxs steps).map (fun _ => togetherWorkerRun.2)).flatten

/-- `finish_return` (`main.py` lines 321-327) joins the (dead) return
threads and emits `sequence_complete` whenever `is_running_sequence`. -/
def togetherSeqComplete (isRunning : Bool) : Bool := isRunning

/- ### Theorems -/

/-- Claim C1, as stated, is false on the code: at `stepsPerRevolution = 200`
and `targetAngleDegrees = 25` (inside the configured range `[15,180]`) the
code's `int(200*25/360)` truncates to 13, while the claimed
`round(200*25/360)` (floored to a minimum of 1) is 14. -/
theorem spec_C1_counterexample :
    15 ≤ 25 ∧ 25 ≤ 180 ∧ stepsNeeded 200 25 = 13 ∧ claimedSteps 200 25 = 14 ∧
      stepsNeeded 200 25 ≠ claimedSteps 200 25 := by
  decide

/-- Claim C1 amended: the move phase computes
`floor(stepsPerRevolution * angle / 360)` (Python `int` truncation), with no
explicit minimum-1 floor; for `angle ∈ [15,180]` at `stepsPerRevolution = 200`
the count is at least 8 (hence at least 1), and it never exceeds the value
the spec claimed (`round`, floored to 1). -/
theorem spec_C1_amended (angle : Nat) (h15 : 15 ≤ angle) (h180 : angle ≤ 180) :
    stepsNeeded 200 angle = 200 * angle / 360 ∧
      8 ≤ stepsNeeded 200 angle ∧
      stepsNeeded 200 angle ≤ claimedSteps 200 angle := by
  refine ⟨rfl, ?_, ?_⟩
  · have h : 200 * 15 ≤ 200 * angle := Nat.mul_le_mul_left 200 h15
    have := Nat.div_le_div_right (c := 360) h
    simpa [stepsNeeded] using this
  · have h1 : 2 * (200 * angle) ≤ 2 * (200 * angle) + 360 := Nat.le_add_right _ _
    have h2 : 2 * (200 * angle) / (2 * 360) ≤ (2 * (200 * angle) + 360) / (2 * 360) :=
      Nat.div_le_div_right h1
    have h3 : 2 * (200 * angle) / (2 * 360) = 200 * angle / 360 :=
      Nat.mul_div_mul_left _ _ (by decide)
    have h4 : stepsNeeded 200 angle ≤ natRound (200 * angle) 360 := by
      unfold stepsNeeded natRound
      omega
    exact le_trans h4 (le_max_right _ _)

theorem spec_C1_amended_witness :
    stepsNeeded 200 45 = 200 * 45 / 360 ∧ 8 ≤ stepsNeeded 200 45 ∧
      stepsNeeded 200 45 ≤ claimedSteps 200 45 :=
  spec_C1_amended 45 (by decide) (by decide)

/-- Claim C2: for every `speedRPM > 0` and fixed positive
`stepsPerRevolution`, the per-half-step delay equals
`60 / (stepsPerRevolution * speedRPM) / 2`, is strictly positive, and is
strictly decreasing in `speedRPM`. -/
theorem spec_C2 (spr r r2 : ℚ) (hspr : 0 < spr) (hr : 0 < r) (hlt : r < r2) :
    stepDelay spr r = 60 / (spr * r) / 2 ∧
      0 < stepDelay spr r ∧
      stepDelay spr r2 < stepDelay spr r := by
  have hprod : 0 < spr * r := mul_pos hspr hr
  have hprod2 : 0 < spr * r2 := mul_pos hspr (lt_trans hr hlt)
  refine ⟨rfl, ?_, ?_⟩
  · have : (0 : ℚ) < 60 / (spr * r) := div_pos (by norm_num) hprod
    have := half_pos this
    simpa [stepDelay, div_div] using this
  · have hmul : spr * r < spr * r2 := by
      exact mul_lt_mul_of_pos_left hlt hspr
    have h60 : (0 : ℚ) < 60 := by norm_num
    have hd := div_lt_div_of_pos_left h60 hprod hmul
    have h2 : 60 / (spr * r2) / 2 < 60 / (spr * r) / 2 :=
      div_lt_div_of_pos_right hd (by norm_num)
    simpa [stepDelay] using h2

theorem spec_C2_witness :
    stepDelay 200 60 = 60 / (200 * 60) / 2 ∧ 0 < stepDelay 200 60 ∧
      stepDelay 200 120 < stepDelay 200 60 :=
  spec_C2 200 60 120 (by norm_num) (by norm_num) (by norm_num)

/-- Claim C9: with the reference `returnSpeedFactor = 0.5`, the return phase
runs at half the forward speed so its per-half-step delay is exactly twice
the forward delay, drives the direction pin at the opposite level to the
move phase, and receives `stepsMoved[idx]` as its step budget. -/
theorem spec_C9 (spr rpm : ℚ) (hspr : 0 < spr) (hrpm : 0 < rpm)
    (d : Bool) (steps : List Nat) (idx : Nat) :
    returnStepDelay spr rpm (1/2) = 2 * stepDelay spr rpm ∧
      returnDirLevel d = !(moveDirLevel d) ∧
      returnBudget steps idx = steps.getD idx 0 := by
  refine ⟨?_, rfl, rfl⟩
  unfold returnStepDelay returnSpeed stepDelay
  have h1 : spr ≠ 0 := ne_of_gt hspr
  have h2 : rpm ≠ 0 := ne_of_gt hrpm
  field_simp
  ring

theorem spec_C9_witness :
    returnStepDelay 200 60 (1/2) = 2 * stepDelay 200 60 ∧
      returnDirLevel true = !(moveDirLevel true) ∧
      returnBudget [25, 0, 25] 0 = ([25, 0, 25] : List Nat).getD 0 0 :=
  spec_C9 200 60 (by norm_num) (by norm_num) true [25, 0, 25] 0

/-- Helper: with the stop event raised from check index `k` on, the move
loop of `main.py` issues exactly `k` pulses and reports `(k, n)`. -/
theorem moveMotorGo_stops (n k : Nat) :
    ∀ fuel i, i ≤ k → k < i + fuel →
      moveMotorGo (fun j => decide (k ≤ j)) n fuel i = (k, some (k, n)) := by
  intro fuel
  induction fuel with
  | zero => intro i h1 h2; omega
  | succ fuel ih =>
      intro i h1 h2
      by_cases hik : k ≤ i
      · have : i = k := le_antisymm h1 hik
        subst this
        simp [moveMotorGo]
      · have hlt : i < k := lt_of_not_le hik
        have : moveMotorGo (fun j => decide (k ≤ j)) n (fuel + 1) i =
            moveMotorGo (fun j => decide (k ≤ j)) n fuel (i + 1) := by
          simp [moveMotorGo, hik]
        rw [this]
        exact ih (i + 1) hlt (by omega)

/-- Claim C3, as stated, is false on `main.py`: with the stop event observed
from check 10 of 25 computed steps onward, the runner halts after 10 pulses
and reports stopped after 10/25 steps, but `steps_moved` for that actuator
ends the repetition at 0 — the claimed return budget of 10 is never stored,
so the subsequent return phase does not use budget `k = 10`. -/
theorem spec_C3_counterexample :
    moveMotorMain (fun j => decide (10 ≤ j)) 25 = (10, some (10, 25)) ∧
      runMotorFinalSteps (fun j => decide (10 ≤ j)) 25 = 0 ∧
      runMotorFinalSteps (fun j => decide (10 ≤ j)) 25 ≠ 10 := by
  refine ⟨?_, ?_, ?_⟩ <;> decide

/-- Claim C3 amended: if cancellation is observed at check `k` of `n`
computed steps, the `main.py` runner halts after exactly `k` pulses and
emits a status event reporting `k` completed out of `n` required steps, but
`steps_moved` keeps its reset value 0 (the code only assigns it — to the
full `n` — on uncancelled completion), so any subsequent return for that
actuator has step budget 0, not `k`; with budget 0 the coordinators spawn
no return runner for it at all. -/
theorem spec_C3_amended (n k : Nat) (hk : k < n) :
    moveMotorMain (fun j => decide (k ≤ j)) n = (k, some (k, n)) ∧
      runMotorFinalSteps (fun j => decide (k ≤ j)) n = 0 := by
  have hrun : moveMotorMain (fun j => decide (k ≤ j)) n = (k, some (k, n)) :=
    moveMotorGo_stops n k n 0 (Nat.zero_le k) (by omega)
  refine ⟨hrun, ?_⟩
  unfold runMotorFinalSteps
  rw [hrun]
  simp

theorem spec_C3_amended_witness :
    moveMotorMain (fun j => decide (10 ≤ j)) 25 = (10, some (10, 25)) ∧
      runMotorFinalSteps (fun j => decide (10 ≤ j)) 25 = 0 :=
  spec_C3_amended 25 10 (by decide)

/-- Helper: every element of the `MotorThread` move trace is exactly one
more than its predecessor. -/
theorem motorMoveGo_chain (running : Nat → Bool) :
    ∀ fuel done s, List.Chain (fun a b => b = a + 1) s (motorMoveGo running fuel done s) := by
  intro fuel
  induction fuel with
  | zero => intro done s; simp [motorMoveGo]
  | succ fuel ih =>
      intro done s
      by_cases h : running done
      · have hc : List.Chain (fun a b => b = a + 1) s
            ((s + 1) :: motorMoveGo running fuel (done + 1) (s + 1)) :=
          List.Chain.cons (show s + 1 = s + 1 from rfl) (ih (done + 1) (s + 1))
        simpa [motorMoveGo, h] using hc
      · simp [motorMoveGo, h]

/-- Claim C4: in `main2.2.py`'s move phase, `steps_moved[idx]` is a `Nat`
counter (hence never negative) whose successive values during the move
phase each exceed the previous by exactly one — one increment per pulse,
so it is monotonically increasing while moving — and `run_single_sequence`
resets the counters to `[0, 0, 0]` at the start of each repetition. -/
theorem spec_C4 (running : Nat → Bool) (target s0 : Nat) (prev : List Nat) :
    List.Chain (fun a b => b = a + 1) s0 (motorMoveTrace running target s0) ∧
      runSingleSequenceReset prev = [0, 0, 0] :=
  ⟨motorMoveGo_chain running target 0 s0, rfl⟩

/-- Claim C5, as stated, is false on the code: after an uncancelled
movement of three actuators at 45 degrees / 200 steps-per-rev, the
Together-mode return phase completes and signals `sequence_complete`, yet
`steps_moved` still holds `[25, 25, 25]` — not 0.  The reset to
`[0, 0, 0]` only happens when `run_single_sequence` starts the next
repetition. -/
theorem spec_C5_counterexample :
    (returnTogether (movementPhaseSteps 200 [45, 45, 45]) true).2 = [25, 25, 25] ∧
      REv.seqComplete ∈ (returnTogether (movementPhaseSteps 200 [45, 45, 45]) true).1 ∧
      (returnTogether (movementPhaseSteps 200 [45, 45, 45]) true).2 ≠ [0, 0, 0] := by
  refine ⟨rfl, by decide, by decide⟩

/-- Helper: the Sequential coordinator always ends by signalling
cycle-return-complete. -/
theorem seqComplete_mem_returnIndividuallyGo (steps : List Nat) :
    ∀ fuel idx, REv.seqComplete ∈ returnIndividuallyGo steps fuel idx := by
  intro fuel
  induction fuel with
  | zero => intro idx; simp [returnIndividuallyGo]
  | succ fuel ih =>
      intro idx
      simp only [returnIndividuallyGo]
      exact List.mem_append.2 (Or.inr (ih (idx + 1)))

/-- Claim C5 amended: the return phase never writes `steps_moved` — after a
completed return (with cycle-return-complete signalled), in either return
mode, the counters still hold their forward values; they become `[0, 0, 0]`
only at the start of the next repetition, via `run_single_sequence`'s
reset. -/
theorem spec_C5_amended (steps prev : List Nat) :
    (returnTogether steps true).2 = steps ∧
      REv.seqComplete ∈ (returnTogether steps true).1 ∧
      (returnSequential steps).2 = steps ∧
      REv.seqComplete ∈ (returnSequential steps).1 ∧
      runSingleSequenceReset prev = [0, 0, 0] := by
  refine ⟨rfl, ?_, rfl, ?_, rfl⟩
  · unfold returnTogether
    simp
  · unfold returnSequential returnIndividually
    exact seqComplete_mem_returnIndividuallyGo steps steps.length 0

/-- Helper: `alreadyAt` only arises from a runner invoked with a zero
budget. -/
theorem alreadyAt_of_mem_runner (i j s : Nat)
    (h : REv.alreadyAt i ∈ returnRunnerEvents j s) : j = i ∧ s = 0 := by
  unfold returnRunnerEvents at h
  by_cases hs : s = 0
  · subst hs
    simp at h
    exact ⟨h.symm, rfl⟩
  · simp [hs, List.mem_replicate] at h

/-- Helper: `pulse` only arises from a runner invoked with a positive
budget, for its own actuator index. -/
theorem pulse_of_mem_runner (i j s : Nat)
    (h : REv.pulse i ∈ returnRunnerEvents j s) : j = i ∧ 0 < s := by
  unfold returnRunnerEvents at h
  by_cases hs : s = 0
  · subst hs
    simp at h
  · simp [hs, List.mem_replicate] at h
    exact ⟨h.symm, Nat.pos_of_ne_zero hs⟩

/-- Helper: a return runner never emits `pause`. -/
theorem pause_not_mem_runner (j s : Nat) : REv.pause ∉ returnRunnerEvents j s := by
  unfold returnRunnerEvents
  by_cases hs : s = 0
  · simp [hs]
  · simp [hs, List.mem_replicate]

/-- Helper: the Sequential coordinator never emits `alreadyAt i`, and emits
no `pulse i` when actuator `i` has a zero budget. -/
theorem returnIndividuallyGo_skips (steps : List Nat) (i : Nat)
    (hi : steps.getD i 0 = 0) :
    ∀ fuel idx, REv.alreadyAt i ∉ returnIndividuallyGo steps fuel idx ∧
      REv.pulse i ∉ returnIndividuallyGo steps fuel idx := by
  intro fuel
  induction fuel with
  | zero => intro idx; simp [returnIndividuallyGo]
  | succ fuel ih =>
      intro idx
      constructor
      · intro hmem
        simp only [returnIndividuallyGo, List.mem_append] at hmem
        rcases hmem with (h1 | h2) | h3
        · by_cases hpos : 0 < steps.getD idx 0
          · rw [if_pos hpos] at h1
            rcases alreadyAt_of_mem_runner i idx _ h1 with ⟨rfl, hz⟩
            omega
          · rw [if_neg hpos] at h1
            simp at h1
        · by_cases hlt : idx < steps.length - 1 <;> simp [hlt] at h2
        · exact (ih (idx + 1)).1 h3
      · intro hmem
        simp only [returnIndividuallyGo, List.mem_append] at hmem
        rcases hmem with (h1 | h2) | h3
        · by_cases hpos : 0 < steps.getD idx 0
          · rw [if_pos hpos] at h1
            rcases pulse_of_mem_runner i idx _ h1 with ⟨rfl, _⟩
            omega
          · rw [if_neg hpos] at h1
            simp at h1
        · by_cases hlt : idx < steps.length - 1 <;> simp [hlt] at h2
        · exact (ih (idx + 1)).2 h3

/-- Helper: the Sequential coordinator emits exactly one `pause` after every
actuator except the last. -/
theorem returnIndividuallyGo_pause_count (steps : List Nat) :
    ∀ fuel idx, idx + fuel = steps.length →
      (returnIndividuallyGo steps fuel idx).count REv.pause =
        steps.length - 1 - idx := by
  intro fuel
  induction fuel with
  | zero =>
      intro idx hidx
      have : (returnIndividuallyGo steps 0 idx).count REv.pause = 0 := by
        simp [returnIndividuallyGo]
      omega
  | succ fuel ih =>
      intro idx hidx
      have hrec := ih (idx + 1) (by omega)
      have h1 : ((if 0 < steps.getD idx 0 then
          returnRunnerEvents idx (steps.getD idx 0) else []) : List REv).count REv.pause = 0 := by
        by_cases hpos : 0 < steps.getD idx 0
        · rw [if_pos hpos]
          exact List.count_eq_zero.2 (pause_not_mem_runner idx _)
        · rw [if_neg hpos]
          rfl
      simp only [returnIndividuallyGo, List.count_append, h1, hrec]
      by_cases hlt : idx < steps.length - 1 <;> simp [hlt] <;> omega

/-- Claim C8, as stated, is false on the code: in Sequential return mode
with budgets `[2, 0, 2]`, actuator 2 (index 1) gets no return pulses and
the 1-second pause is applied after index 0 and after index 1 per index
order, but no "already at origin" report is emitted for it — the
coordinator's `steps_moved[idx] > 0` guard skips the runner entirely, so
the runner's already-at-origin branch is never reached. -/
theorem spec_C8_counterexample :
    returnIndividually [2, 0, 2] =
      [REv.returning 0 2, REv.pulse 0, REv.pulse 0, REv.returned 0, REv.pause,
        REv.pause,
        REv.returning 2 2, REv.pulse 2, REv.pulse 2, REv.returned 2,
        REv.seqComplete] ∧
      REv.alreadyAt 1 ∉ returnIndividually [2, 0, 2] := by
  exact ⟨by decide, by decide⟩

/-- Claim C8 amended: in Sequential return mode an actuator whose
`stepsMoved` is 0 at return time is silently skipped — no return pulses and
no "already at origin" report (that report exists in the return runner but
is unreachable behind the coordinator's `> 0` guard) — while the fixed
1-second inter-actuator pause is still applied per index order, once after
every actuator except the last. -/
theorem spec_C8_amended (steps : List Nat) (i : Nat) (hi : steps.getD i 0 = 0) :
    REv.alreadyAt i ∉ returnIndividually steps ∧
      REv.pulse i ∉ returnIndividually steps ∧
      (returnIndividually steps).count REv.pause = steps.length - 1 := by
  refine ⟨(returnIndividuallyGo_skips steps i hi steps.length 0).1,
    (returnIndividuallyGo_skips steps i hi steps.length 0).2, ?_⟩
  have := returnIndividuallyGo_pause_count steps steps.length 0 (by omega)
  simpa [returnIndividually] using this

theorem spec_C8_amended_witness :
    REv.alreadyAt 1 ∉ returnIndividually [2, 0, 2] ∧
      REv.pulse 1 ∉ returnIndividually [2, 0, 2] ∧
      (returnIndividually [2, 0, 2]).count REv.pause = ([2, 0, 2] : List Nat).length - 1 :=
  spec_C8_amended [2, 0, 2] 1 (by decide)

/-- Helper: writing one list slot leaves the other slots unchanged. -/
theorem getD_set_of_ne (l : List Nat) (i j v : Nat) (h : j ≠ i) :
    (l.set i v).getD j 0 = l.getD j 0 := by
  rw [List.getD_eq_getElem?_getD, List.getD_eq_getElem?_getD,
    List.getElem?_set_ne (Ne.symm h)]

/-- Helper: once the stop request is complete (token set, sequence flag
down) and the pending repetition entry has not yet passed its guard, no
step of either thread can clear the token or re-arm the timer past the
guard. -/
theorem raceStep_keeps_token (s s2 : RaceState) (a : RaceAct)
    (h : raceStep s a = some s2)
    (h1 : s.token = true) (h2 : s.isRunning = false)
    (h3 : s.stopPc = 2) (h4 : s.timerPc ≠ 1) :
    s2.token = true ∧ s2.isRunning = false ∧ s2.stopPc = 2 ∧ s2.timerPc ≠ 1 := by
  cases a with
  | timer =>
      simp only [raceStep] at h
      match hpc : s.timerPc with
      | 0 =>
          rw [hpc] at h
          rw [h2] at h
          simp only [Bool.false_eq_true, if_false] at h
          injection h with h
          subst h
          refine ⟨h1, rfl, h3, ?_⟩
          show (3 : Nat) ≠ 1
          decide
      | 1 => exact absurd hpc h4
      | pc + 2 =>
          rw [hpc] at h
          exact absurd h (by simp)
  | stopper =>
      simp only [raceStep] at h
      rw [h3] at h
      exact absurd h (by simp)

/-- Helper: the token stays set along every valid schedule from a
post-stop state with the repetition guard not yet passed. -/
theorem raceRun_keeps_token (acts : List RaceAct) :
    ∀ s s2 : RaceState, raceRun s acts = some s2 →
      s.token = true → s.isRunning = false → s.stopPc = 2 → s.timerPc ≠ 1 →
      s2.token = true := by
  induction acts with
  | nil =>
      intro s s2 h h1 _ _ _
      simp only [raceRun] at h
      injection h with h
      subst h
      exact h1
  | cons a rest ih =>
      intro s s2 h h1 h2 h3 h4
      simp only [raceRun] at h
      cases hstep : raceStep s a with
      | none => rw [hstep] at h; exact absurd h (by simp)
      | some smid =>
          rw [hstep] at h
          have hmid := raceStep_keeps_token s smid a hstep h1 h2 h3 h4
          exact ih smid s2 h hmid.1 hmid.2.1 hmid.2.2.1 hmid.2.2.2

/-- Claim C7, as stated, is false on the code: for repetitions after the
first, `run_single_sequence` runs on a `threading.Timer` thread and races
`stop_motors`.  In the schedule below the timer thread passes the
`is_running_sequence` guard, then `stop_motors` completes (lowers the flag
and sets the token), and then the timer thread's `stop_event.clear()`
executes — resetting the token within the same run, after the stop request
set it. -/
theorem spec_C7_counterexample :
    raceRun raceInit [RaceAct.timer, RaceAct.stopper, RaceAct.stopper] =
        some ⟨true, false, 1, 2⟩ ∧
      raceRun raceInit [RaceAct.timer, RaceAct.stopper, RaceAct.stopper, RaceAct.timer] =
        some ⟨false, false, 2, 2⟩ ∧
      (⟨true, false, 1, 2⟩ : RaceState).token = true ∧
      (⟨true, false, 1, 2⟩ : RaceState).stopPc = 2 ∧
      (⟨false, false, 2, 2⟩ : RaceState).token = false := by
  refine ⟨by decide, by decide, rfl, rfl, rfl⟩

/-- Claim C7 amended: a stop request sets the cancellation token, and a
second `stop_motors` in succession is a no-op on the engine state beyond
the first call's effect; but the token is not guaranteed to stay set
within a run — the Timer-thread repetition entry can clear it after a stop
when its `is_running_sequence` guard was passed before the stop landed.
Only when the stop request completes before the guard is read does the
token remain set along every schedule, because the guard then fails and
the `clear()` is never reached. -/
theorem spec_C7_amended (s : AppState) (acts : List RaceAct) (r r2 : RaceState)
    (h1 : r.token = true) (h2 : r.isRunning = false) (h3 : r.stopPc = 2)
    (h4 : r.timerPc = 0) (hexec : raceRun r acts = some r2) :
    stopMotors (stopMotors s) = stopMotors s ∧
      (stopMotors s).stopEvent = true ∧
      r2.token = true := by
  refine ⟨rfl, rfl, ?_⟩
  exact raceRun_keeps_token acts r r2 hexec h1 h2 h3 (by omega)

theorem spec_C7_amended_witness :
    stopMotors (stopMotors ⟨false, true, false, true⟩) =
        stopMotors ⟨false, true, false, true⟩ ∧
      (stopMotors (⟨false, true, false, true⟩ : AppState)).stopEvent = true ∧
      (⟨true, false, 3, 2⟩ : RaceState).token = true :=
  spec_C7_amended ⟨false, true, false, true⟩ [RaceAct.timer]
    ⟨true, false, 0, 2⟩ ⟨true, false, 3, 2⟩ rfl rfl rfl rfl (by decide)

/-- Helper: one `main.py` orchestrator step preserves the join invariant:
every motor the waiter has already joined is done, and the return sequence
only ever starts once the waiter is past every motor. -/
theorem orchStep_inv (s s2 : OrchState) (a : OAct)
    (h : orchStep s a = some s2)
    (h1 : ∀ j, j < s.widx → s.pcs.getD j 0 = 2)
    (h2 : s.ret = true → s.pcs.length ≤ s.widx) :
    (∀ j, j < s2.widx → s2.pcs.getD j 0 = 2) ∧
      (s2.ret = true → s2.pcs.length ≤ s2.widx) := by
  cases a with
  | mover i =>
      simp only [orchStep] at h
      by_cases hi : i < s.pcs.length
      · rw [if_pos hi] at h
        by_cases hp : s.pcs.getD i 0 < 2
        · rw [if_pos hp] at h
          injection h with h
          subst h
          have hiw : ¬ i < s.widx := fun hc => absurd (h1 i hc) (by omega)
          constructor
          · intro j hj
            have hji : j ≠ i := fun hji => hiw (hji ▸ hj)
            show (s.pcs.set i (s.pcs.getD i 0 + 1)).getD j 0 = 2
            rw [getD_set_of_ne _ _ _ _ hji]
            exact h1 j hj
          · intro hr
            have hl : (s.pcs.set i (s.pcs.getD i 0 + 1)).length = s.pcs.length :=
              List.length_set s.pcs i _
            show (s.pcs.set i (s.pcs.getD i 0 + 1)).length ≤ s.widx
            rw [hl]
            exact h2 hr
        · rw [if_neg hp] at h; exact absurd h (by simp)
      · rw [if_neg hi] at h; exact absurd h (by simp)
  | waiter =>
      simp only [orchStep] at h
      by_cases hw : s.widx < s.pcs.length
      · rw [if_pos hw] at h
        by_cases hp : s.pcs.getD s.widx 0 = 2
        · rw [if_pos hp] at h
          injection h with h
          subst h
          constructor
          · intro j hj
            show s.pcs.getD j 0 = 2
            rcases Nat.lt_succ_iff_lt_or_eq.1 hj with hj2 | hj2
            · exact h1 j hj2
            · simpa [hj2] using hp
          · intro hr
            have hle := h2 hr
            show s.pcs.length ≤ s.widx + 1
            omega
        · rw [if_neg hp] at h; exact absurd h (by simp)
      · rw [if_neg hw] at h
        by_cases hr : s.ret = false
        · rw [if_pos hr] at h
          injection h with h
          subst h
          refine ⟨h1, fun _ => ?_⟩
          show s.pcs.length ≤ s.widx
          omega
        · rw [if_neg hr] at h; exact absurd h (by simp)

/-- Helper: the join invariant holds along every valid `main.py`
orchestrator execution. -/
theorem orchRun_inv (acts : List OAct) :
    ∀ s s2 : OrchState, orchRun s acts = some s2 →
      (∀ j, j < s.widx → s.pcs.getD j 0 = 2) →
      (s.ret = true → s.pcs.length ≤ s.widx) →
      (∀ j, j < s2.widx → s2.pcs.getD j 0 = 2) ∧
        (s2.ret = true → s2.pcs.length ≤ s2.widx) := by
  induction acts with
  | nil =>
      intro s s2 h h1 h2
      simp only [orchRun] at h
      injection h with h
      subst h
      exact ⟨h1, h2⟩
  | cons a rest ih =>
      intro s s2 h h1 h2
      simp only [orchRun] at h
      cases hstep : orchStep s a with
      | none => rw [hstep] at h; exact absurd h (by simp)
      | some smid =>
          rw [hstep] at h
          have hmid := orchStep_inv s smid a hstep h1 h2
          exact ih smid s2 h hmid.1 hmid.2

/-- Claim C6, as stated, is false on `main2.2.py`: its `wait_and_return`
iterates over `self.threads`, whose slots are only filled after each
actuator's start delay, and skips empty slots without joining.  The
4-step schedule in which the waiter runs before any mover is a valid
execution that starts the return sequence (`ret = true`) while every
actuator's movement phase is still pending (program counter 0, not
terminal 2). -/
theorem spec_C6_counterexample :
    orch2Run orch2Init [OAct.waiter, OAct.waiter, OAct.waiter, OAct.waiter] =
        some ⟨[0, 0, 0], [false, false, false], 3, true⟩ ∧
      (⟨[0, 0, 0], [false, false, false], 3, true⟩ : Orch2State).ret = true ∧
      (⟨[0, 0, 0], [false, false, false], 3, true⟩ : Orch2State).pcs.getD 0 0 ≠ 2 := by
  refine ⟨by decide, rfl, by decide⟩

/-- Claim C6 amended: in `main.py` the orchestrator's `wait_and_return`
joins every movement thread (all created before it starts) before invoking
any return, so in every valid interleaving, when the return sequence starts
every actuator's movement phase has reached its terminal state; in
`main2.2.py` the same barrier can be bypassed because the thread slots may
still be empty when the waiter inspects them. -/
theorem spec_C6_amended (n : Nat) (acts : List OAct) (s : OrchState) (j : Nat)
    (hrun : orchRun (orchInit n) acts = some s) (hret : s.ret = true)
    (hj : j < s.pcs.length) :
    s.pcs.getD j 0 = 2 := by
  have hinv := orchRun_inv acts (orchInit n) s hrun
    (by intro j hj2; simp [orchInit] at hj2)
    (by intro hr; simp [orchInit] at hr)
  exact hinv.1 j (lt_of_lt_of_le hj (hinv.2 hret))

theorem spec_C6_amended_witness :
    (⟨[2, 2, 2], 3, true⟩ : OrchState).pcs.getD 0 0 = 2 :=
  spec_C6_amended 3
    [OAct.mover 0, OAct.mover 0, OAct.mover 1, OAct.mover 1,
      OAct.mover 2, OAct.mover 2, OAct.waiter, OAct.waiter, OAct.waiter, OAct.waiter]
    ⟨[2, 2, 2], 3, true⟩ 0 (by decide) rfl (by decide)

/-- Claim C10: in `main.py`'s Together return mode, the nested worker
shadows the module-level `return_motor` and calls itself with six
positional arguments against a two-positional-parameter signature, so every
spawned return thread ends in `TypeError` immediately, no return pulse is
ever issued, and the cycle is nonetheless reported complete through
`sequence_complete`. -/
theorem spec_C10 (steps : List Nat) :
    togetherThreadOutcomes steps =
        (spawnedReturnIdxs steps).map (fun _ => PyOutcome.typeError) ∧
      togetherPulses steps = [] ∧
      togetherSeqComplete true = true := by
  have hrun : togetherWorkerRun = (PyOutcome.typeError, []) := by decide
  refine ⟨?_, ?_, rfl⟩
  · unfold togetherThreadOutcomes
    rw [hrun]
  · unfold togetherPulses
    rw [hrun]
    induction spawnedReturnIdxs steps with
    | nil => rfl
    | cons i rest ih => simp [ih]
